import Mathlib

/-
Verification of the GST Reporter application (src/app.py) against its
natural-language specification.  The development shallowly embeds the
program's logic: the password hash (hashlib.sha256 hexdigest over the
UTF-8 encoding of the password), the credential store (users table with
register / login), the tax aggregator over an uploaded table, the
per-user report store (save / history / clear) and the monthly rollup.
Numbers are modelled as exact rationals, matching the spec's decimal
arithmetic contract; table cells are raw strings as read from the file.
-/

namespace GSTReporter

/-! ## SHA-256, the digest used by hash_password -/

/-- Rotate a 32-bit word right by `n` bits. -/
def rotr (x n : Nat) : Nat := ((x >>> n) ||| (x <<< (32 - n))) % 2 ^ 32

/-- Big Sigma-0 of the SHA-256 compression function. -/
def bigSigma0 (x : Nat) : Nat := rotr x 2 ^^^ rotr x 13 ^^^ rotr x 22

/-- Big Sigma-1 of the SHA-256 compression function. -/
def bigSigma1 (x : Nat) : Nat := rotr x 6 ^^^ rotr x 11 ^^^ rotr x 25

/-- Small sigma-0 of the SHA-256 message schedule. -/
def smallSigma0 (x : Nat) : Nat := rotr x 7 ^^^ rotr x 18 ^^^ (x >>> 3)

/-- Small sigma-1 of the SHA-256 message schedule. -/
def smallSigma1 (x : Nat) : Nat := rotr x 17 ^^^ rotr x 19 ^^^ (x >>> 10)

/-- Choice function of SHA-256 (not-x is taken modulo 32 bits). -/
def ch (x y z : Nat) : Nat := (x &&& y) ^^^ ((x ^^^ 0xffffffff) &&& z)

/-- Majority function of SHA-256. -/
def maj (x y z : Nat) : Nat := (x &&& y) ^^^ (x &&& z) ^^^ (y &&& z)

/-- The 64 SHA-256 round constants, written in decimal. -/
def K : List Nat :=
  [1116352408, 1899447441, 3049323471, 3921009573, 961987163,
   1508970993, 2453635748, 2870763221, 3624381080, 310598401,
   607225278, 1426881987, 1925078388, 2162078206, 2614888103,
   3248222580, 3835390401, 4022224774, 264347078, 604807628,
   770255983, 1249150122, 1555081692, 1996064986, 2554220882,
   2821834349, 2952996808, 3210313671, 3336571891, 3584528711,
   113926993, 338241895, 666307205, 773529912, 1294757372,
   1396182291, 1695183700, 1986661051, 2177026350, 2456956037,
   2730485921, 2820302411, 3259730800, 3345764771, 3516065817,
   3600352804, 4094571909, 275423344, 430227734, 506948616,
   659060556, 883997877, 958139571, 1322822218, 1537002063,
   1747873779, 1955562222, 2024104815, 2227730452, 2361852424,
   2428436474, 2756734187, 3204031479, 3329325298]

/-- The SHA-256 initial hash value, written in decimal. -/
def H0 : List Nat :=
  [1779033703, 3144134277, 1013904242, 2773480762, 1359893119,
   2600822924, 528734635, 1541459225]

/-- Big-endian byte expansion of `x` into `n` bytes. -/
def toBytesBE (n x : Nat) : List Nat :=
  (List.range n).map (fun i => (x >>> (8 * (n - 1 - i))) % 256)

/-- SHA-256 padding: append 0x80, zero bytes to 56 mod 64, then the 64-bit bit length. -/
def padMessage (msg : List Nat) : List Nat :=
  let L := msg.length
  let z := (119 - L % 64) % 64
  msg ++ [0x80] ++ List.replicate z 0 ++ toBytesBE 8 ((8 * L) % 2 ^ 64)

/-- Group bytes into big-endian 32-bit words. -/
def bytesToWords : List Nat → List Nat
  | b0 :: b1 :: b2 :: b3 :: rest => (((b0 * 256 + b1) * 256 + b2) * 256 + b3) :: bytesToWords rest
  | _ => []

/-- Extend a 16-word block by `t` additional message-schedule words. -/
def extendSchedule (w : List Nat) : Nat → List Nat
  | 0 => w
  | n + 1 =>
    let w2 := extendSchedule w n
    let len := w2.length
    w2 ++ [(smallSigma1 (w2.getD (len - 2) 0) + w2.getD (len - 7) 0 +
            smallSigma0 (w2.getD (len - 15) 0) + w2.getD (len - 16) 0) % 2 ^ 32]

/-- One SHA-256 compression round on the 8-word working state. -/
def round (st : List Nat) (k w : Nat) : List Nat :=
  match st with
  | [a, b, c, d, e, f, g, h] =>
    let t1 := (h + bigSigma1 e + ch e f g + k + w) % 2 ^ 32
    let t2 := (bigSigma0 a + maj a b c) % 2 ^ 32
    [(t1 + t2) % 2 ^ 32, a, b, c, (d + t1) % 2 ^ 32, e, f, g]
  | _ => st

/-- Compress one 16-word block into the running hash. -/
def compress (h : List Nat) (block : List Nat) : List Nat :=
  let w := extendSchedule block 48
  let final := (K.zip w).foldl (fun st kw => round st kw.1 kw.2) h
  List.zipWith (fun x y => (x + y) % 2 ^ 32) h final

/-- Group a word sequence into 16-word blocks. -/
def wordsToBlocks : List Nat → List (List Nat)
  | w0 :: w1 :: w2 :: w3 :: w4 :: w5 :: w6 :: w7 ::
    w8 :: w9 :: w10 :: w11 :: w12 :: w13 :: w14 :: w15 :: rest =>
    [w0, w1, w2, w3, w4, w5, w6, w7, w8, w9, w10, w11, w12, w13, w14, w15] :: wordsToBlocks rest
  | _ => []

/-- Fold the compression function over all 16-word blocks. -/
def processBlocks (h : List Nat) (ws : List Nat) : List Nat :=
  (wordsToBlocks ws).foldl compress h

/-- Lower-case hex character for a nibble. -/
def hexChar (n : Nat) : Char := if n < 10 then Char.ofNat (48 + n) else Char.ofNat (87 + n)

/-- Eight lower-case hex characters of a 32-bit word, big-endian. -/
def wordToHex (x : Nat) : List Char :=
  (List.range 8).map (fun i => hexChar ((x >>> (4 * (7 - i))) % 16))

/-- SHA-256 of a byte sequence, as the lower-case hex digest string. -/
def sha256hex (msg : List Nat) : String :=
  ⟨((processBlocks H0 (bytesToWords (padMessage msg))).map wordToHex).flatten⟩

/-- UTF-8 encoding of one character. -/
def utf8Bytes (c : Char) : List Nat :=
  let n := c.toNat
  if n < 0x80 then [n]
  else if n < 0x800 then [0xc0 ||| (n >>> 6), 0x80 ||| (n &&& 0x3f)]
  else if n < 0x10000 then
    [0xe0 ||| (n >>> 12), 0x80 ||| ((n >>> 6) &&& 0x3f), 0x80 ||| (n &&& 0x3f)]
  else
    [0xf0 ||| (n >>> 18), 0x80 ||| ((n >>> 12) &&& 0x3f), 0x80 ||| ((n >>> 6) &&& 0x3f),
     0x80 ||| (n &&& 0x3f)]

/-- UTF-8 bytes of a string, as the source's password.encode() produces. -/
def strBytes (s : String) : List Nat := (s.toList.map utf8Bytes).flatten

/-- Embeds hash_password from src/app.py line 69: the hexadecimal SHA-256
digest of the UTF-8 encoding of the password. -/
def hash_password (password : String) : String := sha256hex (strBytes password)

/-! ## Decimal parsing of cell values -/

/-- Numeric value of a decimal digit character. -/
def digitVal (c : Char) : Nat := c.toNat - 48

/-- Parse a non-empty all-digit character list as a natural number; any
non-digit (or emptiness) fails. -/
def parseDigits : List Char → Option Nat
  | [] => none
  | cs => cs.foldlM (fun acc c => if c.isDigit then some (acc * 10 + digitVal c) else none) 0

/-- Combine integer and fractional digit parts into an exact rational. -/
def parseFrac (intPart fracPart : List Char) : Option ℚ :=
  match parseDigits intPart, parseDigits fracPart with
  | some i, some f => some ((i : ℚ) + (f : ℚ) / (10 : ℚ) ^ fracPart.length)
  | _, _ => none

/-- Parse an unsigned decimal numeral, with at most one decimal point. -/
def parseUnsigned (cs : List Char) : Option ℚ :=
  let p := cs.span (fun c => c ≠ '.')
  match p.2 with
  | [] => (parseDigits p.1).map (fun n => (n : ℚ))
  | _ :: fracPart => parseFrac p.1 fracPart

/-- Parse a decimal numeral with an optional leading minus sign. -/
def parseDecimal (s : String) : Option ℚ :=
  match s.toList with
  | '-' :: rest => (parseUnsigned rest).map (fun q => -q)
  | cs => parseUnsigned cs

/-- Embeds the Amount conversion of src/app.py line 240: the cell string has
its thousands-separator commas removed and is then parsed as a number; a
value that still fails to parse is a hard error. -/
def parseAmount (s : String) : Option ℚ := parseDecimal ⟨s.toList.filter (fun c => c ≠ ',')⟩

/-- Embeds the GST-column coercion of src/app.py line 250
(pd.to_numeric(..., errors="coerce").fillna(0)): a non-numeric or missing
value becomes 0. -/
def parseGstCell (s : String) : ℚ := (parseDecimal s).getD 0

/-! ## The tax aggregator -/

/-- An uploaded table: column names and rows of raw cell strings. -/
structure Table where
  cols : List String
  rows : List (List String)

/-- First index of a column name in the header. -/
def colIdx (c : String) : List String → Option Nat
  | [] => none
  | x :: xs => if x = c then some 0 else (colIdx c xs).map (· + 1)

/-- The cell strings of column `c`, one per row, in row order. -/
def colValues (t : Table) (c : String) : List String :=
  match colIdx c t.cols with
  | some i => t.rows.map (fun row => row.getD i "")
  | none => []

/-- Lower-casing of a column name, as str.lower() produces on ASCII names. -/
def lowerStr (s : String) : String := ⟨s.toList.map Char.toLower⟩

/-- Embeds the gst_cols selection of src/app.py line 247: all column names
whose lower-case form is "gst" or "tax", in column order. -/
def gstCols (t : Table) : List String :=
  t.cols.filter (fun c => lowerStr c = "gst" ∨ lowerStr c = "tax")

/-- Failure modes of the upload processing: the missing-Amount-column check
of line 236, and the hard numeric conversion error of line 240. -/
inductive AggError
  | missingColumn
  | amountParse
deriving DecidableEq

/-- The per-row columns derived by the aggregator together with the three
scalar totals. -/
structure AggResult where
  amounts : List ℚ
  gsts : List ℚ
  totals : List ℚ
  total_amount : ℚ
  total_gst : ℚ
  grand_total : ℚ
deriving DecidableEq

/-- Parse every Amount cell; any single failure fails the whole column. -/
def parseAmounts : List String → Option (List ℚ)
  | [] => some []
  | s :: rest =>
    match parseAmount s, parseAmounts rest with
    | some a, some as => some (a :: as)
    | _, _ => none

/-- Embeds the GST determination of src/app.py lines 249-253: copy the first
gst/tax column with coercion to 0, otherwise amount * rate / 100. -/
def computeGsts (t : Table) (rate : ℚ) (amounts : List ℚ) : List ℚ :=
  match gstCols t with
  | c :: _ => (colValues t c).map parseGstCell
  | [] => amounts.map (fun a => a * rate / 100)

/-- Derivation of the per-row columns and scalar totals of src/app.py lines
249-260 once the Amount column has parsed. -/
def aggregateOk (t : Table) (rate : ℚ) (amounts : List ℚ) : AggResult :=
  let gsts := computeGsts t rate amounts
  let totals := List.zipWith (fun a g => a + g) amounts gsts
  ⟨amounts, gsts, totals, amounts.sum, gsts.sum, totals.sum⟩

/-- Embeds the upload processing of src/app.py lines 236-260: require the
Amount column, parse it, determine the GST column, derive per-row totals and
the three scalar sums. -/
def aggregate (t : Table) (rate : ℚ) : Except AggError AggResult :=
  if "Amount" ∈ t.cols then
    match parseAmounts (colValues t "Amount") with
    | none => .error .amountParse
    | some amounts => .ok (aggregateOk t rate amounts)
  else .error .missingColumn

instance {ε α : Type} [DecidableEq ε] [DecidableEq α] : DecidableEq (Except ε α) := fun a b =>
  match a, b with
  | .error e, .error f =>
    if h : e = f then .isTrue (by rw [h]) else .isFalse (fun hc => by cases hc; exact h rfl)
  | .error _, .ok _ => .isFalse (fun hc => by cases hc)
  | .ok _, .error _ => .isFalse (fun hc => by cases hc)
  | .ok x, .ok y =>
    if h : x = y then .isTrue (by rw [h]) else .isFalse (fun hc => by cases hc; exact h rfl)

/-! ## Credential store -/

/-- A row of the users table: username and stored password hash. -/
structure Credential where
  username : String
  password : String
deriving DecidableEq

/-- Outcome of the registration form of src/app.py lines 87-108. -/
inductive RegResult
  | ok
  | validationError
  | duplicateUsername
deriving DecidableEq

/-- Embeds register from src/app.py lines 87-108: empty fields are rejected
first; an INSERT hitting the UNIQUE username constraint is caught and
reported as a duplicate; otherwise the username with the password hash is
appended. -/
def register (store : List Credential) (u p : String) : RegResult × List Credential :=
  if u = "" ∨ p = "" then (.validationError, store)
  else if store.any (fun c => c.username = u) then (.duplicateUsername, store)
  else (.ok, store ++ [⟨u, hash_password p⟩])

/-- Embeds login from src/app.py lines 111-130: SELECT a row whose username
and password hash both match; truthiness of fetchone() is success. -/
def authenticate (store : List Credential) (u p : String) : Bool :=
  store.any (fun c => c.username = u ∧ c.password = hash_password p)

/-! ## Report store -/

/-- A row of the reports table. -/
structure Report where
  id : Nat
  username : String
  date : String
  total_amount : ℚ
  total_gst : ℚ
  grand_total : ℚ
deriving DecidableEq

/-- The reports table together with its auto-increment counter. -/
structure DB where
  reports : List Report
  nextId : Nat
deriving DecidableEq

/-- Embeds the Save button of src/app.py lines 316-326: INSERT one report row
for the logged-in user, receiving the next auto-increment id. -/
def save (db : DB) (u date : String) (ta tg gt : ℚ) : DB :=
  { reports := db.reports ++ [⟨db.nextId, u, date, ta, tg, gt⟩], nextId := db.nextId + 1 }

/-- Insert a report into a list kept in descending id order. -/
def insertDesc (r : Report) : List Report → List Report
  | [] => [r]
  | x :: xs => if x.id ≤ r.id then r :: x :: xs else x :: insertDesc r xs

/-- Sort reports by id descending, modelling ORDER BY id DESC. -/
def orderByIdDesc : List Report → List Report
  | [] => []
  | x :: xs => insertDesc x (orderByIdDesc xs)

/-- Embeds the history query of src/app.py lines 347-351: SELECT the rows of
one username, ordered by id descending. -/
def listReports (db : DB) (u : String) : List Report :=
  orderByIdDesc (db.reports.filter (fun r => r.username = u))

/-- Embeds the Clear My History action of src/app.py lines 381-387: DELETE
every report row of the given username. -/
def clear (db : DB) (u : String) : DB :=
  { db with reports := db.reports.filter (fun r => ¬ r.username = u) }

/-- Number of rows the DELETE of the clear action removes. -/
def clearCount (db : DB) (u : String) : Nat :=
  (db.reports.filter (fun r => r.username = u)).length

/-- Database well-formedness: every stored id is below the auto-increment
counter, as the AUTOINCREMENT column guarantees. -/
def WF (db : DB) : Prop := ∀ r ∈ db.reports, r.id < db.nextId

instance (db : DB) : Decidable (WF db) := by unfold WF; infer_instance

/-- History ordering: every earlier row has the larger id (newest first). -/
def SortedByIdDesc (l : List Report) : Prop := l.Pairwise (fun a b => b.id ≤ a.id)

/-! ## Monthly rollup -/

/-- Calendar month key of a stored date string "YYYY-MM-DD HH:MM", as
pd.to_datetime followed by dt.to_period("M") extracts it. -/
def parseYM (s : String) : Nat × Nat :=
  ((parseDigits (s.toList.take 4)).getD 0, (parseDigits ((s.toList.drop 5).take 2)).getD 0)

/-- Chronological order on (year, month) keys. -/
def ymLe (a b : Nat × Nat) : Prop := a.1 < b.1 ∨ (a.1 = b.1 ∧ a.2 ≤ b.2)

/-- Strict chronological order on (year, month) keys. -/
def ymLt (a b : Nat × Nat) : Prop := a.1 < b.1 ∨ (a.1 = b.1 ∧ a.2 < b.2)

instance : DecidablePred (fun p : (Nat × Nat) × (Nat × Nat) => ymLe p.1 p.2) :=
  fun p => by unfold ymLe; infer_instance

instance (a b : Nat × Nat) : Decidable (ymLe a b) := by unfold ymLe; infer_instance

instance (a b : Nat × Nat) : Decidable (ymLt a b) := by unfold ymLt; infer_instance

/-- Insert a month key into a chronologically ascending list. -/
def insertYM (k : Nat × Nat) : List (Nat × Nat) → List (Nat × Nat)
  | [] => [k]
  | x :: xs => if ymLe k x then k :: x :: xs else x :: insertYM k xs

/-- Sort month keys ascending, modelling the sorted group keys of
pandas groupby. -/
def sortYM : List (Nat × Nat) → List (Nat × Nat)
  | [] => []
  | x :: xs => insertYM x (sortYM xs)

/-- One row of the monthly summary. -/
structure Bucket where
  month : Nat × Nat
  total_amount : ℚ
  total_gst : ℚ
  grand_total : ℚ
deriving DecidableEq

/-- The reports of one calendar month. -/
def monthGroup (rs : List Report) (k : Nat × Nat) : List Report :=
  rs.filter (fun r => parseYM r.date = k)

/-- Embeds the monthly summary of src/app.py lines 360-367: group the
history rows by the calendar month of their date and sum the three numeric
columns per group; pandas groupby emits the groups sorted by key ascending. -/
def monthly (rs : List Report) : List Bucket :=
  (sortYM (rs.map (fun r => parseYM r.date)).dedup).map
    (fun k => ⟨k, ((monthGroup rs k).map Report.total_amount).sum,
                  ((monthGroup rs k).map Report.total_gst).sum,
                  ((monthGroup rs k).map Report.grand_total).sum⟩)

/-! ## Concrete example values used by witnesses -/

/-- The upload of testable property 7 of the spec: Amount cells "1,000" and
"2,500.50" with no gst/tax column. -/
def sampleTable : Table := ⟨["Amount"], [["1,000"], ["2,500.50"]]⟩

/-- The aggregation result of sampleTable at rate 18. -/
def sampleRes : AggResult :=
  ⟨[1000, 5001/2], [180, 45009/100], [1180, 295059/100], 7001/2, 63009/100, 413059/100⟩

/-- An upload carrying a Tax column, including a non-numeric cell. -/
def taxTable : Table := ⟨["Item", "Tax", "Amount"], [["a", "9", "100"], ["b", "x", "200"]]⟩

/-- The aggregation result of taxTable, at any rate. -/
def taxRes : AggResult := ⟨[100, 200], [9, 0], [109, 200], 300, 9, 309⟩

/-- A one-report database for the save/list round-trip witness. -/
def dbSample : DB := ⟨[⟨1, "alice", "2024-01-05 10:00", 1, 2, 3⟩], 2⟩

/-- A two-user database for the clear-scoping witness. -/
def dbTwoUsers : DB :=
  ⟨[⟨1, "alice", "2024-01-05 10:00", 1, 2, 3⟩, ⟨2, "bob", "2024-01-06 11:00", 4, 5, 6⟩], 3⟩

/-- A database in which alice owns no report. -/
def dbOnlyBob : DB := ⟨[⟨2, "bob", "2024-01-06 11:00", 4, 5, 6⟩], 3⟩

/-- Reports spanning two calendar months for the rollup witness. -/
def rollupReports : List Report :=
  [⟨1, "alice", "2024-01-05 10:00", 1, 2, 3⟩,
   ⟨2, "alice", "2024-01-20 12:00", 10, 20, 30⟩,
   ⟨3, "alice", "2023-12-20 12:00", 100, 200, 300⟩]

/-- A one-user credential store for the authentication witnesses. -/
def credStore : List Credential := [⟨"alice", hash_password "secret"⟩]

/-! ## Helper lemmas for the aggregator -/

attribute [local semireducible] Rat.add Rat.sub Rat.mul Rat.inv Rat.ofScientific

/-- Success characterisation of the aggregator. -/
lemma aggregate_ok_iff {t : Table} {rate : ℚ} {res : AggResult} :
    aggregate t rate = .ok res ↔
      "Amount" ∈ t.cols ∧
        ∃ as, parseAmounts (colValues t "Amount") = some as ∧ res = aggregateOk t rate as := by
  constructor
  · intro h
    unfold aggregate at h
    by_cases hm : "Amount" ∈ t.cols
    · rw [if_pos hm] at h
      cases hp : parseAmounts (colValues t "Amount") with
      | none => rw [hp] at h; simp at h
      | some as =>
        rw [hp] at h
        injection h with h2
        exact ⟨hm, as, rfl, h2.symm⟩
    · rw [if_neg hm] at h; simp at h
  · rintro ⟨hm, as, hp, hres⟩
    unfold aggregate
    rw [if_pos hm, hp, hres]

/-- A successfully parsed Amount column has one value per cell. -/
lemma parseAmounts_length : ∀ {l : List String} {as : List ℚ},
    parseAmounts l = some as → as.length = l.length := by
  intro l
  induction l with
  | nil =>
    intro as h
    cases h
    rfl
  | cons s rest ih =>
    intro as h
    unfold parseAmounts at h
    cases hpa : parseAmount s <;> cases hpr : parseAmounts rest <;> rw [hpa, hpr] at h <;>
      simp at h
    rename_i a as2
    cases h
    simp [ih hpr]

/-- Membership in the header makes column lookup succeed. -/
lemma colIdx_isSome {c : String} : ∀ {cols : List String},
    c ∈ cols → (colIdx c cols).isSome := by
  intro cols
  induction cols with
  | nil => intro h; cases h
  | cons x xs ih =>
    intro h
    unfold colIdx
    by_cases hx : x = c
    · rw [if_pos hx]; rfl
    · rw [if_neg hx]
      have hc : c ∈ xs := by
        cases h with
        | head => exact absurd rfl hx
        | tail _ hh => exact hh
      have hs := ih hc
      cases hco : colIdx c xs with
      | none => rw [hco] at hs; simp at hs
      | some i => rfl

/-- A present column yields one cell string per row. -/
lemma length_colValues {t : Table} {c : String} (h : c ∈ t.cols) :
    (colValues t c).length = t.rows.length := by
  unfold colValues
  cases hi : colIdx c t.cols with
  | none =>
    have hs := colIdx_isSome h
    rw [hi] at hs
    cases hs
  | some i => simp

/-- Summing a pointwise sum of two equally long columns sums each column. -/
lemma sum_zipWith_add : ∀ {l1 l2 : List ℚ}, l1.length = l2.length →
    (List.zipWith (fun a g => a + g) l1 l2).sum = l1.sum + l2.sum := by
  intro l1
  induction l1 with
  | nil =>
    intro l2 h
    cases l2 with
    | nil => simp
    | cons b m => simp at h
  | cons a l ih =>
    intro l2 h
    cases l2 with
    | nil => simp at h
    | cons b m =>
      simp only [List.zipWith_cons_cons, List.sum_cons]
      rw [ih (by simpa using h)]
      ring

/-- Any selected gst/tax column is a column of the table. -/
lemma mem_cols_of_gstCols {t : Table} {c : String} (h : c ∈ gstCols t) : c ∈ t.cols :=
  List.mem_of_mem_filter h

/-- The derived GST column has one value per amount. -/
lemma length_computeGsts {t : Table} {rate : ℚ} {as : List ℚ}
    (has : as.length = t.rows.length) : (computeGsts t rate as).length = as.length := by
  unfold computeGsts
  cases hg : gstCols t with
  | nil => simp
  | cons c rest =>
    have hc : c ∈ t.cols := mem_cols_of_gstCols (hg ▸ List.mem_cons_self c rest)
    simp [length_colValues hc, has]

/-- The head of a filter is the first element satisfying the predicate. -/
lemma find?_of_filter_eq_cons {p : String → Bool} : ∀ {l : List String} {c : String}
    {rest : List String}, l.filter p = c :: rest → l.find? p = some c := by
  intro l
  induction l with
  | nil => intro c rest h; simp at h
  | cons x xs ih =>
    intro c rest h
    by_cases hx : p x = true
    · rw [List.filter_cons_of_pos hx] at h
      cases h
      exact List.find?_cons_of_pos _ hx
    · have hx2 : p x = false := by
        cases hpx : p x
        · rfl
        · exact absurd hpx hx
      rw [List.filter_cons_of_neg (by simp [hx2])] at h
      rw [List.find?_cons_of_neg _ (by simp [hx2])]
      exact ih h

/-! ## Claims C1 to C4: the tax aggregator -/

/-- C1: for every uploaded row set, after the GST column is determined the
aggregator computes per-row total = amount + gst (the totals column is the
pointwise sum of the amounts column and the gst column) and reduces the row
set to exactly three scalars: total_amount is the sum of the amount values,
total_gst is the sum of the gst values, and grand_total is the sum of the
per-row totals. -/
theorem C1_per_row_total_and_three_scalars (t : Table) (rate : ℚ) (res : AggResult)
    (h : aggregate t rate = .ok res) :
    res.totals = List.zipWith (fun a g => a + g) res.amounts res.gsts ∧
    res.total_amount = res.amounts.sum ∧
    res.total_gst = res.gsts.sum ∧
    res.grand_total = res.totals.sum := by
  obtain ⟨hm, as, hp, hres⟩ := aggregate_ok_iff.mp h
  subst hres
  exact ⟨rfl, rfl, rfl, rfl⟩

/-- Witness for C1 at the spec's example upload. -/
theorem C1_per_row_total_and_three_scalars_witness :
    aggregate sampleTable 18 = .ok sampleRes ∧
    (sampleRes.totals = List.zipWith (fun a g => a + g) sampleRes.amounts sampleRes.gsts ∧
     sampleRes.total_amount = sampleRes.amounts.sum ∧
     sampleRes.total_gst = sampleRes.gsts.sum ∧
     sampleRes.grand_total = sampleRes.totals.sum) :=
  ⟨by decide, C1_per_row_total_and_three_scalars sampleTable 18 sampleRes (by decide)⟩

/-- C2: for any non-empty row set, the grand total produced by the aggregator
equals total_amount + total_gst: the sum of the per-row (amount + gst) values
equals the sum of amounts plus the sum of gst values. -/
theorem C2_grand_total_decomposes (t : Table) (rate : ℚ) (res : AggResult)
    (h : aggregate t rate = .ok res) (hne : t.rows ≠ []) :
    res.grand_total = res.total_amount + res.total_gst := by
  obtain ⟨hm, as, hp, hres⟩ := aggregate_ok_iff.mp h
  subst hres
  have hlen : as.length = t.rows.length := (parseAmounts_length hp).trans (length_colValues hm)
  show (List.zipWith (fun a g => a + g) as (computeGsts t rate as)).sum =
    as.sum + (computeGsts t rate as).sum
  exact sum_zipWith_add (length_computeGsts hlen).symm

/-- Witness for C2 at the spec's example upload. -/
theorem C2_grand_total_decomposes_witness :
    sampleTable.rows ≠ [] ∧
    aggregate sampleTable 18 = .ok sampleRes ∧
    sampleRes.grand_total = sampleRes.total_amount + sampleRes.total_gst :=
  ⟨by decide, by decide, C2_grand_total_decomposes sampleTable 18 sampleRes (by decide) (by decide)⟩

/-- C3: for every uploaded table, if some column name case-insensitively
equals "gst" or "tax" then the first such column in column order supplies the
gst values with every non-parsing value coerced to 0 and the user-chosen rate
is never consulted (the aggregation result is the same at any other rate);
otherwise gst = amount * rate / 100 for every row, for an externally supplied
rate in the set 5, 12, 18, 28. -/
theorem C3_gst_column_selection (t : Table) (rate rate2 : ℚ) (res : AggResult)
    (h : aggregate t rate = .ok res) :
    (gstCols t ≠ [] → aggregate t rate2 = .ok res) ∧
    (∀ c rest, gstCols t = c :: rest →
      t.cols.find? (fun d => lowerStr d = "gst" ∨ lowerStr d = "tax") = some c ∧
      res.gsts = (colValues t c).map parseGstCell) ∧
    (gstCols t = [] → (rate = 5 ∨ rate = 12 ∨ rate = 18 ∨ rate = 28) →
      res.gsts = res.amounts.map (fun a => a * rate / 100)) ∧
    (∀ s, parseDecimal s = none → parseGstCell s = 0) := by
  obtain ⟨hm, as, hp, hres⟩ := aggregate_ok_iff.mp h
  refine ⟨?_, ?_, ?_, ?_⟩
  · intro hne
    apply aggregate_ok_iff.mpr
    refine ⟨hm, as, hp, ?_⟩
    subst hres
    have hsame : computeGsts t rate2 as = computeGsts t rate as := by
      unfold computeGsts
      cases hg : gstCols t with
      | nil => exact absurd hg hne
      | cons c cs => rfl
    unfold aggregateOk
    rw [hsame]
  · intro c rest hg
    refine ⟨find?_of_filter_eq_cons hg, ?_⟩
    subst hres
    show computeGsts t rate as = (colValues t c).map parseGstCell
    unfold computeGsts
    rw [hg]
  · intro hg hrate
    subst hres
    show computeGsts t rate as = as.map (fun a => a * rate / 100)
    unfold computeGsts
    rw [hg]
  · intro s hs
    unfold parseGstCell
    rw [hs]
    rfl

/-- Witness for C3: the Tax column is used (the non-numeric cell coerced to
0), the rate is not consulted, and without a tax column the rate formula
applies. -/
theorem C3_gst_column_selection_witness :
    aggregate taxTable 5 = .ok taxRes ∧
    aggregate taxTable 12 = .ok taxRes ∧
    taxTable.cols.find? (fun d => lowerStr d = "gst" ∨ lowerStr d = "tax") = some "Tax" ∧
    taxRes.gsts = (colValues taxTable "Tax").map parseGstCell ∧
    parseGstCell "x" = 0 ∧
    sampleRes.gsts = sampleRes.amounts.map (fun a => a * 18 / 100) :=
  ⟨by decide,
   (C3_gst_column_selection taxTable 5 12 taxRes (by decide)).1 (by decide),
   ((C3_gst_column_selection taxTable 5 12 taxRes (by decide)).2.1 "Tax" [] (by decide)).1,
   ((C3_gst_column_selection taxTable 5 12 taxRes (by decide)).2.1 "Tax" [] (by decide)).2,
   (C3_gst_column_selection taxTable 5 12 taxRes (by decide)).2.2.2 "x" (by decide),
   (C3_gst_column_selection sampleTable 18 18 sampleRes (by decide)).2.2.1 (by decide)
     (by decide)⟩

/-- C4 counterexample: an upload whose Amount column is present but contains
the non-numeric cell "abc" aborts the whole batch with a parse error, not
with the missing-column error, refuting the clause that no row-level error
aborts the whole batch. -/
theorem C4_counterexample :
    aggregate ⟨["Amount"], [["abc"]]⟩ 5 = .error .amountParse ∧
    "Amount" ∈ (Table.mk ["Amount"] [["abc"]]).cols ∧
    aggregate ⟨["Amount"], [["abc"]]⟩ 5 ≠ .error .missingColumn := by decide

/-- C4 as amended: the aggregation fails with the missing-column error
exactly when there is no Amount column, and that failure depends only on the
header, before any row is processed; additionally a non-numeric Amount value
aborts the whole batch with a parse error; when the Amount column exists and
every Amount cell parses, aggregation succeeds (GST-column cell errors never
abort). -/
theorem C4_amended_failure_modes (t : Table) (rate : ℚ) :
    (aggregate t rate = .error .missingColumn ↔ "Amount" ∉ t.cols) ∧
    ("Amount" ∉ t.cols → ∀ rows2, aggregate ⟨t.cols, rows2⟩ rate = .error .missingColumn) ∧
    (aggregate t rate = .error .amountParse ↔
      "Amount" ∈ t.cols ∧ parseAmounts (colValues t "Amount") = none) ∧
    (∀ as, parseAmounts (colValues t "Amount") = some as → "Amount" ∈ t.cols →
      aggregate t rate = .ok (aggregateOk t rate as)) := by
  refine ⟨?_, ?_, ?_, ?_⟩
  · constructor
    · intro h hm
      unfold aggregate at h
      rw [if_pos hm] at h
      cases hpa : parseAmounts (colValues t "Amount") <;> rw [hpa] at h <;> simp at h
    · intro hm
      unfold aggregate
      rw [if_neg hm]
  · intro hm rows2
    unfold aggregate
    rw [if_neg hm]
  · constructor
    · intro h
      unfold aggregate at h
      by_cases hm : "Amount" ∈ t.cols
      · rw [if_pos hm] at h
        cases hpa : parseAmounts (colValues t "Amount") with
        | none => exact ⟨hm, rfl⟩
        | some as => rw [hpa] at h; simp at h
      · rw [if_neg hm] at h; simp at h
    · rintro ⟨hm, hpa⟩
      unfold aggregate
      rw [if_pos hm, hpa]
  · intro as hpa hm
    unfold aggregate
    rw [if_pos hm, hpa]

/-- Witness for the amended C4: a header without Amount fails with the
missing-column error, and the spec's example upload succeeds. -/
theorem C4_amended_failure_modes_witness :
    aggregate ⟨["Amt"], [["1"]]⟩ 5 = .error .missingColumn ∧
    aggregate sampleTable 18 = .ok (aggregateOk sampleTable 18 [1000, 5001/2]) :=
  ⟨(C4_amended_failure_modes ⟨["Amt"], [["1"]]⟩ 5).1.mpr (by decide),
   (C4_amended_failure_modes sampleTable 18).2.2.2 [1000, 5001/2] (by decide) (by decide)⟩

/-! ## Helper lemmas for the report store -/

/-- Unfolding equation of insertDesc on a cons cell. -/
lemma insertDesc_cons (r y : Report) (ys : List Report) :
    insertDesc r (y :: ys) = if y.id ≤ r.id then r :: y :: ys else y :: insertDesc r ys := rfl

/-- Insertion produces exactly the members of the insertion. -/
lemma mem_insertDesc {r x : Report} : ∀ {l : List Report},
    x ∈ insertDesc r l ↔ x = r ∨ x ∈ l := by
  intro l
  induction l with
  | nil => simp [insertDesc]
  | cons y ys ih =>
    rw [insertDesc_cons]
    by_cases hy : y.id ≤ r.id
    · rw [if_pos hy]
      simp [List.mem_cons]
    · rw [if_neg hy]
      simp only [List.mem_cons, ih]
      tauto

/-- Insertion into a descending list keeps it descending. -/
lemma sortedDesc_insertDesc {r : Report} : ∀ {l : List Report},
    SortedByIdDesc l → SortedByIdDesc (insertDesc r l) := by
  intro l
  induction l with
  | nil => intro h; simp [insertDesc, SortedByIdDesc]
  | cons y ys ih =>
    intro h
    unfold SortedByIdDesc at h ⊢
    rw [List.pairwise_cons] at h
    obtain ⟨hyall, hys⟩ := h
    rw [insertDesc_cons]
    by_cases hy : y.id ≤ r.id
    · rw [if_pos hy, List.pairwise_cons]
      refine ⟨?_, List.pairwise_cons.mpr ⟨hyall, hys⟩⟩
      intro b hb
      rcases List.mem_cons.mp hb with hb1 | hb2
      · subst hb1; exact hy
      · exact le_trans (hyall b hb2) hy
    · rw [if_neg hy, List.pairwise_cons]
      refine ⟨?_, ih hys⟩
      intro b hb
      rcases mem_insertDesc.mp hb with hb1 | hb2
      · subst hb1; exact le_of_not_le hy
      · exact hyall b hb2

/-- The history ordering of the sort, for any input list. -/
lemma sortedDesc_orderByIdDesc : ∀ (l : List Report), SortedByIdDesc (orderByIdDesc l) := by
  intro l
  induction l with
  | nil => simp [orderByIdDesc, SortedByIdDesc]
  | cons x xs ih => exact sortedDesc_insertDesc ih

/-- Sorting preserves the members. -/
lemma mem_orderByIdDesc {x : Report} : ∀ {l : List Report},
    x ∈ orderByIdDesc l ↔ x ∈ l := by
  intro l
  induction l with
  | nil => simp [orderByIdDesc]
  | cons y ys ih =>
    show x ∈ insertDesc y (orderByIdDesc ys) ↔ _
    rw [mem_insertDesc]
    simp [ih]

/-- Appending a row with the largest id sorts to the front. -/
lemma orderByIdDesc_append_max : ∀ {l : List Report} {m : Report},
    (∀ x ∈ l, x.id < m.id) → orderByIdDesc (l ++ [m]) = m :: orderByIdDesc l := by
  intro l
  induction l with
  | nil => intro m h; rfl
  | cons x xs ih =>
    intro m h
    have hx : x.id < m.id := h x (List.mem_cons_self x xs)
    show insertDesc x (orderByIdDesc (xs ++ [m])) = m :: insertDesc x (orderByIdDesc xs)
    rw [ih (fun y hy => h y (List.mem_cons_of_mem x hy)), insertDesc_cons,
      if_neg (Nat.not_le.mpr hx)]

/-- Insertion never empties a list. -/
lemma insertDesc_ne_nil (r : Report) : ∀ (l : List Report), insertDesc r l ≠ [] := by
  intro l
  cases l with
  | nil => simp [insertDesc]
  | cons y ys =>
    rw [insertDesc_cons]
    by_cases hy : y.id ≤ r.id
    · rw [if_pos hy]; simp
    · rw [if_neg hy]; simp

/-- The sort result is empty exactly for the empty input. -/
lemma orderByIdDesc_eq_nil {l : List Report} : orderByIdDesc l = [] ↔ l = [] := by
  cases l with
  | nil => simp [orderByIdDesc]
  | cons x xs =>
    constructor
    · intro h
      exact absurd h (insertDesc_ne_nil x (orderByIdDesc xs))
    · intro h
      cases h

/-- Rows kept by a clear never match the cleared username. -/
lemma filter_username_of_clear (l : List Report) (u : String) :
    (l.filter (fun r => ¬ r.username = u)).filter (fun r => r.username = u) = [] := by
  rw [List.filter_filter]
  apply List.filter_eq_nil_iff.mpr
  intro a ha
  simp

/-- A clear for one user does not touch the rows of another user. -/
lemma filter_other_of_clear {u v : String} (huv : v ≠ u) (l : List Report) :
    (l.filter (fun r => ¬ r.username = u)).filter (fun r => r.username = v) =
      l.filter (fun r => r.username = v) := by
  rw [List.filter_filter]
  apply List.filter_congr
  intro a ha
  by_cases hv : a.username = v
  · simp [hv, huv]
  · simp [hv]

/-- Clearing twice filters the same rows as clearing once. -/
lemma filter_clear_idem (l : List Report) (u : String) :
    (l.filter (fun r => ¬ r.username = u)).filter (fun r => ¬ r.username = u) =
      l.filter (fun r => ¬ r.username = u) := by
  rw [List.filter_filter]
  apply List.filter_congr
  intro a ha
  simp

/-! ## Claims C5 and C6: the report store -/

/-- C5: for every username and every totals triple, save followed by list
returns the saved totals unchanged as the first (newest) element; list always
returns the user's reports ordered newest first, by id descending; and a user
with no reports receives the empty sequence rather than an error. -/
theorem C5_save_then_list_roundtrip (db : DB) (u d : String) (ta tg gt : ℚ)
    (hwf : WF db) :
    listReports (save db u d ta tg gt) u =
      Report.mk db.nextId u d ta tg gt :: listReports db u ∧
    (∀ v, SortedByIdDesc (listReports db v)) ∧
    (∀ v, (∀ r ∈ db.reports, r.username ≠ v) → listReports db v = []) := by
  refine ⟨?_, ?_, ?_⟩
  · show orderByIdDesc ((db.reports ++ [Report.mk db.nextId u d ta tg gt]).filter
      (fun r => r.username = u)) = _
    rw [List.filter_append]
    have hnew : List.filter (fun r => decide (r.username = u))
        [Report.mk db.nextId u d ta tg gt] = [Report.mk db.nextId u d ta tg gt] := by simp
    rw [hnew]
    apply orderByIdDesc_append_max
    intro x hx
    exact hwf x (List.mem_of_mem_filter hx)
  · intro v
    exact sortedDesc_orderByIdDesc _
  · intro v hv
    show orderByIdDesc (db.reports.filter (fun r => r.username = v)) = []
    have hfil : db.reports.filter (fun r => r.username = v) = [] :=
      List.filter_eq_nil_iff.mpr (by intro a ha; simp [hv a ha])
    rw [hfil]
    rfl

/-- Witness for C5 on a concrete one-report database. -/
theorem C5_save_then_list_roundtrip_witness :
    listReports (save dbSample "alice" "2024-02-01 09:30" 4 5 6) "alice" =
      Report.mk 2 "alice" "2024-02-01 09:30" 4 5 6 :: listReports dbSample "alice" ∧
    SortedByIdDesc (listReports dbSample "alice") ∧
    listReports dbSample "bob" = [] :=
  ⟨(C5_save_then_list_roundtrip dbSample "alice" "2024-02-01 09:30" 4 5 6 (by decide)).1,
   (C5_save_then_list_roundtrip dbSample "alice" "2024-02-01 09:30" 4 5 6 (by decide)).2.1
     "alice",
   (C5_save_then_list_roundtrip dbSample "alice" "2024-02-01 09:30" 4 5 6 (by decide)).2.2
     "bob" (by decide)⟩

/-- C6: for distinct usernames u and v, clear(u) empties the subsequent
list(u) while leaving the reports listed for v unchanged; list(u) only ever
returns reports owned by u; clear is idempotent; and clearing an already
empty history succeeds with zero deletions and changes nothing. -/
theorem C6_clear_scoped_idempotent (db : DB) (u v : String) (huv : v ≠ u) :
    listReports (clear db u) u = [] ∧
    listReports (clear db u) v = listReports db v ∧
    (∀ r ∈ listReports db u, r.username = u) ∧
    clear (clear db u) u = clear db u ∧
    (listReports db u = [] → clearCount db u = 0 ∧ clear db u = db) := by
  refine ⟨?_, ?_, ?_, ?_, ?_⟩
  · show orderByIdDesc ((db.reports.filter (fun r => ¬ r.username = u)).filter
      (fun r => r.username = u)) = []
    rw [filter_username_of_clear]
    rfl
  · show orderByIdDesc ((db.reports.filter (fun r => ¬ r.username = u)).filter
      (fun r => r.username = v)) = _
    rw [filter_other_of_clear huv]
    rfl
  · intro r hr
    exact of_decide_eq_true (List.mem_filter.mp (mem_orderByIdDesc.mp hr)).2
  · show DB.mk ((db.reports.filter (fun r => ¬ r.username = u)).filter
      (fun r => ¬ r.username = u)) db.nextId = _
    rw [filter_clear_idem]
    rfl
  · intro h
    have hfil : db.reports.filter (fun r => r.username = u) = [] :=
      orderByIdDesc_eq_nil.mp h
    constructor
    · show (db.reports.filter (fun r => r.username = u)).length = 0
      rw [hfil]
      rfl
    · show DB.mk (db.reports.filter (fun r => ¬ r.username = u)) db.nextId = db
      have hkeep : db.reports.filter (fun r => ¬ r.username = u) = db.reports := by
        apply List.filter_eq_self.mpr
        intro a ha
        have hne := List.filter_eq_nil_iff.mp hfil a ha
        simp at hne ⊢
        exact hne
      rw [hkeep]

/-- Witness for C6 on concrete two-user and one-user databases. -/
theorem C6_clear_scoped_idempotent_witness :
    listReports (clear dbTwoUsers "alice") "alice" = [] ∧
    listReports (clear dbTwoUsers "alice") "bob" = listReports dbTwoUsers "bob" ∧
    clear (clear dbTwoUsers "alice") "alice" = clear dbTwoUsers "alice" ∧
    (clearCount dbOnlyBob "alice" = 0 ∧ clear dbOnlyBob "alice" = dbOnlyBob) :=
  ⟨(C6_clear_scoped_idempotent dbTwoUsers "alice" "bob" (by decide)).1,
   (C6_clear_scoped_idempotent dbTwoUsers "alice" "bob" (by decide)).2.1,
   (C6_clear_scoped_idempotent dbTwoUsers "alice" "bob" (by decide)).2.2.2.1,
   (C6_clear_scoped_idempotent dbOnlyBob "alice" "bob" (by decide)).2.2.2.2 (by decide)⟩

/-! ## Helper lemmas for the monthly rollup -/

/-- Totality of the chronological order. -/
lemma ymLe_total (a b : Nat × Nat) : ymLe a b ∨ ymLe b a := by
  unfold ymLe
  omega

/-- Transitivity of the chronological order. -/
lemma ymLe_trans {a b c : Nat × Nat} (h1 : ymLe a b) (h2 : ymLe b c) : ymLe a c := by
  unfold ymLe at h1 h2 ⊢
  omega

/-- The reverse comparison holds when the forward one fails. -/
lemma ymLe_of_not {a b : Nat × Nat} (h : ¬ ymLe a b) : ymLe b a :=
  (ymLe_total a b).resolve_left h

/-- A weak comparison between distinct keys is strict. -/
lemma ymLt_of_le_ne {a b : Nat × Nat} (h : ymLe a b) (hne : a ≠ b) : ymLt a b := by
  have hp : ¬ (a.1 = b.1 ∧ a.2 = b.2) := fun hh => hne (Prod.ext hh.1 hh.2)
  unfold ymLe at h
  unfold ymLt
  omega

/-- Unfolding equation of insertYM on a cons cell. -/
lemma insertYM_cons (k x : Nat × Nat) (xs : List (Nat × Nat)) :
    insertYM k (x :: xs) = if ymLe k x then k :: x :: xs else x :: insertYM k xs := rfl

/-- Inserting a key is a permutation of putting it in front. -/
lemma insertYM_perm (k : Nat × Nat) : ∀ (l : List (Nat × Nat)), List.Perm (insertYM k l) (k :: l) := by
  intro l
  induction l with
  | nil => exact List.Perm.refl _
  | cons x xs ih =>
    rw [insertYM_cons]
    by_cases h : ymLe k x
    · rw [if_pos h]
    · rw [if_neg h]
      exact (List.Perm.cons x ih).trans (List.Perm.swap k x xs)

/-- Sorting the month keys permutes them. -/
lemma sortYM_perm : ∀ (l : List (Nat × Nat)), List.Perm (sortYM l) l := by
  intro l
  induction l with
  | nil => exact List.Perm.refl _
  | cons x xs ih => exact (insertYM_perm x (sortYM xs)).trans (List.Perm.cons x ih)

/-- Sorting the month keys preserves membership. -/
lemma mem_sortYM {k : Nat × Nat} {l : List (Nat × Nat)} : k ∈ sortYM l ↔ k ∈ l :=
  (sortYM_perm l).mem_iff

/-- Sorting the month keys preserves distinctness. -/
lemma nodup_sortYM {l : List (Nat × Nat)} (h : l.Nodup) : (sortYM l).Nodup :=
  (sortYM_perm l).symm.nodup h

/-- Members of an insertion are the inserted key or old members. -/
lemma mem_insertYM {k x : Nat × Nat} : ∀ {l : List (Nat × Nat)},
    x ∈ insertYM k l ↔ x = k ∨ x ∈ l := by
  intro l
  induction l with
  | nil => simp [insertYM]
  | cons y ys ih =>
    rw [insertYM_cons]
    by_cases hy : ymLe k y
    · rw [if_pos hy]
      simp [List.mem_cons]
    · rw [if_neg hy]
      simp only [List.mem_cons, ih]
      tauto

/-- Insertion into an ascending key list keeps it ascending. -/
lemma pairwise_insertYM {k : Nat × Nat} : ∀ {l : List (Nat × Nat)},
    l.Pairwise ymLe → (insertYM k l).Pairwise ymLe := by
  intro l
  induction l with
  | nil => intro h; simp [insertYM]
  | cons y ys ih =>
    intro h
    rw [List.pairwise_cons] at h
    obtain ⟨hyall, hys⟩ := h
    rw [insertYM_cons]
    by_cases hy : ymLe k y
    · rw [if_pos hy, List.pairwise_cons]
      refine ⟨?_, List.pairwise_cons.mpr ⟨hyall, hys⟩⟩
      intro b hb
      rcases List.mem_cons.mp hb with hb1 | hb2
      · subst hb1; exact hy
      · exact ymLe_trans hy (hyall b hb2)
    · rw [if_neg hy, List.pairwise_cons]
      refine ⟨?_, ih hys⟩
      intro b hb
      rcases mem_insertYM.mp hb with hb1 | hb2
      · subst hb1; exact ymLe_of_not hy
      · exact hyall b hb2

/-- The sorted month keys are ascending. -/
lemma pairwise_sortYM : ∀ (l : List (Nat × Nat)), (sortYM l).Pairwise ymLe := by
  intro l
  induction l with
  | nil => simp [sortYM]
  | cons x xs ih => exact pairwise_insertYM ih

/-- Summing a pointwise sum of two functions over a list splits. -/
lemma sum_map_add_dist {α : Type} (f g : α → ℚ) : ∀ (l : List α),
    (l.map (fun x => f x + g x)).sum = (l.map f).sum + (l.map g).sum := by
  intro l
  induction l with
  | nil => simp
  | cons x xs ih =>
    simp only [List.map_cons, List.sum_cons, ih]
    ring

/-- A key outside the list contributes nothing. -/
lemma sum_if_not_mem (c : ℚ) {a : Nat × Nat} : ∀ {ks : List (Nat × Nat)}, a ∉ ks →
    (ks.map (fun k => if a = k then c else 0)).sum = 0 := by
  intro ks
  induction ks with
  | nil => intro h; rfl
  | cons x xs ih =>
    intro h
    have hax : a ≠ x := fun hh => h (hh ▸ List.mem_cons_self x xs)
    have haxs : a ∉ xs := fun hh => h (List.mem_cons_of_mem x hh)
    simp only [List.map_cons, List.sum_cons, if_neg hax, ih haxs, zero_add]

/-- A key occurring once in a distinct list contributes exactly once. -/
lemma sum_if_single (c : ℚ) {a : Nat × Nat} : ∀ {ks : List (Nat × Nat)}, ks.Nodup →
    a ∈ ks → (ks.map (fun k => if a = k then c else 0)).sum = c := by
  intro ks
  induction ks with
  | nil => intro _ h; cases h
  | cons x xs ih =>
    intro hnd hmem
    rw [List.nodup_cons] at hnd
    obtain ⟨hx_not, hnd_xs⟩ := hnd
    rcases List.mem_cons.mp hmem with hax | haxs
    · subst hax
      have hnot : a ∉ xs := hx_not
      simp [sum_if_not_mem c hnot]
    · have hax : a ≠ x := fun hh => hx_not (hh ▸ haxs)
      simp only [List.map_cons, List.sum_cons, if_neg hax, ih hnd_xs haxs, zero_add]

/-- Summing any quantity fiberwise over distinct covering month keys equals
summing it over all reports: no report is counted twice or dropped. -/
lemma sum_fibers (f : Report → ℚ) : ∀ (rs : List Report) (ks : List (Nat × Nat)),
    ks.Nodup → (∀ r ∈ rs, parseYM r.date ∈ ks) →
    (ks.map (fun k => ((rs.filter (fun r => parseYM r.date = k)).map f).sum)).sum
      = (rs.map f).sum := by
  intro rs
  induction rs with
  | nil =>
    intro ks hnd hcov
    simp
  | cons r rest ih =>
    intro ks hnd hcov
    have hstep : ∀ k ∈ ks,
        (((r :: rest).filter (fun x => parseYM x.date = k)).map f).sum =
          (if parseYM r.date = k then f r else 0) +
            ((rest.filter (fun x => parseYM x.date = k)).map f).sum := by
      intro k hk
      by_cases h : parseYM r.date = k
      · rw [List.filter_cons_of_pos (by simp [h])]
        simp [h]
      · rw [List.filter_cons_of_neg (by simp [h])]
        simp [h]
    rw [List.map_congr_left hstep, sum_map_add_dist,
      sum_if_single (f r) hnd (hcov r (List.mem_cons_self r rest)),
      ih ks hnd (fun x hx => hcov x (List.mem_cons_of_mem r hx))]
    simp

/-! ## Claim C7: the monthly rollup -/

/-- C7: the monthly rollup groups reports by the calendar month of their
date and sums total_amount, total_gst and grand_total per group; the bucket
sums partition the input exactly (for each of the three columns the bucket
sums add up to the input sum, so no report is counted twice or dropped);
buckets are ordered by month strictly ascending; and an empty report list
yields an empty bucket sequence. -/
theorem C7_monthly_rollup (rs : List Report) :
    monthly [] = ([] : List Bucket) ∧
    List.Pairwise (fun a b => ymLt a.month b.month) (monthly rs) ∧
    ((monthly rs).map Bucket.total_amount).sum = (rs.map Report.total_amount).sum ∧
    ((monthly rs).map Bucket.total_gst).sum = (rs.map Report.total_gst).sum ∧
    ((monthly rs).map Bucket.grand_total).sum = (rs.map Report.grand_total).sum ∧
    (∀ b ∈ monthly rs,
      b.total_amount = ((monthGroup rs b.month).map Report.total_amount).sum ∧
      b.total_gst = ((monthGroup rs b.month).map Report.total_gst).sum ∧
      b.grand_total = ((monthGroup rs b.month).map Report.grand_total).sum) := by
  have hnd : (sortYM ((rs.map (fun r => parseYM r.date)).dedup)).Nodup :=
    nodup_sortYM (List.nodup_dedup _)
  have hcov : ∀ r ∈ rs, parseYM r.date ∈ sortYM ((rs.map (fun r => parseYM r.date)).dedup) := by
    intro r hr
    rw [mem_sortYM, List.mem_dedup]
    exact List.mem_map_of_mem _ hr
  refine ⟨rfl, ?_, ?_, ?_, ?_, ?_⟩
  · have h1 := pairwise_sortYM ((rs.map (fun r => parseYM r.date)).dedup)
    have h3 := (h1.and hnd).imp (fun hab => ymLt_of_le_ne hab.1 hab.2)
    unfold monthly
    rw [List.pairwise_map]
    exact h3.imp (fun hab => hab)
  · unfold monthly
    rw [List.map_map]
    exact sum_fibers Report.total_amount rs _ hnd hcov
  · unfold monthly
    rw [List.map_map]
    exact sum_fibers Report.total_gst rs _ hnd hcov
  · unfold monthly
    rw [List.map_map]
    exact sum_fibers Report.grand_total rs _ hnd hcov
  · intro b hb
    unfold monthly at hb
    obtain ⟨k, hk, hbk⟩ := List.mem_map.mp hb
    subst hbk
    exact ⟨rfl, rfl, rfl⟩

/-- Witness for C7 on reports spanning two months. -/
theorem C7_monthly_rollup_witness :
    monthly ([] : List Report) = [] ∧
    ((monthly rollupReports).map Bucket.grand_total).sum =
      (rollupReports.map Report.grand_total).sum ∧
    List.Pairwise (fun a b => ymLt a.month b.month) (monthly rollupReports) :=
  ⟨(C7_monthly_rollup rollupReports).1,
   (C7_monthly_rollup rollupReports).2.2.2.2.1,
   (C7_monthly_rollup rollupReports).2.1⟩

/-! ## Helper lemmas for the credential store -/

/-- Login succeeds exactly when a stored row matches both fields. -/
lemma authenticate_eq_true_iff (store : List Credential) (u p : String) :
    authenticate store u p = true ↔
      ∃ c ∈ store, c.username = u ∧ c.password = hash_password p := by
  simp [authenticate, List.any_eq_true]

/-- Registration of a fresh, non-empty credential appends its row. -/
lemma register_fresh {store : List Credential} {u p : String} (hu : u ≠ "") (hp : p ≠ "")
    (hfresh : ∀ c ∈ store, c.username ≠ u) :
    register store u p = (.ok, store ++ [⟨u, hash_password p⟩]) := by
  have hval : ¬ (u = "" ∨ p = "") := by
    rintro (h | h)
    exacts [hu h, hp h]
  have hnodup : ¬ store.any (fun c => c.username = u) = true := by
    intro ha
    obtain ⟨c, hc, hcu⟩ := List.any_eq_true.mp ha
    exact hfresh c hc (of_decide_eq_true hcu)
  unfold register
  rw [if_neg hval, if_neg hnodup]

/-! ## Claims C8 to C10: authentication -/

/-- C8: authenticate succeeds if and only if some stored row has exactly the
given username and exactly the hash of the given password; in particular it
fails for a username not in the store, and for a correct username with a
wrong password (any password whose hash differs from every hash stored for
that username). -/
theorem C8_authenticate_exact_match (store : List Credential) (u p : String) :
    (authenticate store u p = true ↔
      ∃ c ∈ store, c.username = u ∧ c.password = hash_password p) ∧
    ((∀ c ∈ store, c.username ≠ u) → authenticate store u p = false) ∧
    (∀ p2, hash_password p2 ≠ hash_password p →
      (∀ c ∈ store, c.username = u → c.password = hash_password p) →
      authenticate store u p2 = false) := by
  refine ⟨authenticate_eq_true_iff store u p, ?_, ?_⟩
  · intro hnone
    cases ha : authenticate store u p with
    | false => rfl
    | true =>
      obtain ⟨c, hc, hcu, _⟩ := (authenticate_eq_true_iff store u p).mp ha
      exact absurd hcu (hnone c hc)
  · intro p2 hh hall
    cases ha : authenticate store u p2 with
    | false => rfl
    | true =>
      obtain ⟨c, hc, hcu, hcp⟩ := (authenticate_eq_true_iff store u p2).mp ha
      exact absurd (hcp.symm.trans (hall c hc hcu)) hh

/-- Witness for C8: the stored password authenticates, a wrong password and
a wrong username do not. -/
theorem C8_authenticate_exact_match_witness :
    authenticate credStore "alice" "secret" = true ∧
    authenticate credStore "alice" "wrong" = false ∧
    authenticate credStore "bob" "secret" = false :=
  ⟨(C8_authenticate_exact_match credStore "alice" "secret").1.mpr
     ⟨⟨"alice", hash_password "secret"⟩, by simp [credStore], rfl, rfl⟩,
   (C8_authenticate_exact_match credStore "alice" "secret").2.2 "wrong" (by decide)
     (by intro c hc hcu; simp [credStore] at hc; rw [hc]),
   (C8_authenticate_exact_match credStore "bob" "secret").2.1 (by decide)⟩

/-- C9: registering a fresh non-empty username and password succeeds and
appends the credential; registering the same username again fails with the
duplicate-username error and leaves the stored credentials unchanged. -/
theorem C9_duplicate_registration (store : List Credential) (u p : String)
    (hu : u ≠ "") (hp : p ≠ "") (hfresh : ∀ c ∈ store, c.username ≠ u) :
    (register store u p).1 = .ok ∧
    (register store u p).2 = store ++ [⟨u, hash_password p⟩] ∧
    (register (register store u p).2 u p).1 = .duplicateUsername ∧
    (register (register store u p).2 u p).2 = (register store u p).2 := by
  have hval : ¬ (u = "" ∨ p = "") := by
    rintro (h | h)
    exacts [hu h, hp h]
  have h1 : register store u p = (.ok, store ++ [⟨u, hash_password p⟩]) :=
    register_fresh hu hp hfresh
  have h2 : (store ++ [Credential.mk u (hash_password p)]).any
      (fun c => c.username = u) = true := by
    rw [List.any_eq_true]
    exact ⟨⟨u, hash_password p⟩,
      List.mem_append_right _ (List.mem_cons_self _ _), by simp⟩
  have h3 : register (store ++ [Credential.mk u (hash_password p)]) u p =
      (.duplicateUsername, store ++ [Credential.mk u (hash_password p)]) := by
    unfold register
    rw [if_neg hval, if_pos h2]
  refine ⟨?_, ?_, ?_, ?_⟩
  · rw [h1]
  · rw [h1]
  · show (register (register store u p).2 u p).1 = _
    rw [h1]
    show (register (store ++ [Credential.mk u (hash_password p)]) u p).1 = _
    rw [h3]
  · show (register (register store u p).2 u p).2 = _
    rw [h1]
    show (register (store ++ [Credential.mk u (hash_password p)]) u p).2 =
      (RegResult.ok, store ++ [Credential.mk u (hash_password p)]).2
    rw [h3]

/-- Witness for C9 on an initially empty store. -/
theorem C9_duplicate_registration_witness :
    (register [] "dana" "pw1").1 = .ok ∧
    (register (register [] "dana" "pw1").2 "dana" "pw1").1 = .duplicateUsername ∧
    (register (register [] "dana" "pw1").2 "dana" "pw1").2 = (register [] "dana" "pw1").2 :=
  ⟨(C9_duplicate_registration [] "dana" "pw1" (by decide) (by decide) (by simp)).1,
   (C9_duplicate_registration [] "dana" "pw1" (by decide) (by decide) (by simp)).2.2.1,
   (C9_duplicate_registration [] "dana" "pw1" (by decide) (by decide) (by simp)).2.2.2⟩

/-- C10: a successful registration followed by authentication with the same
username and password succeeds, because registration and login apply the same
deterministic hash function to the password. -/
theorem C10_register_then_authenticate (store : List Credential) (u p : String)
    (hu : u ≠ "") (hp : p ≠ "") (hfresh : ∀ c ∈ store, c.username ≠ u) :
    (register store u p).1 = .ok ∧
    authenticate (register store u p).2 u p = true := by
  have h1 : register store u p = (.ok, store ++ [⟨u, hash_password p⟩]) :=
    register_fresh hu hp hfresh
  refine ⟨by rw [h1], ?_⟩
  rw [h1]
  exact (authenticate_eq_true_iff _ _ _).mpr
    ⟨⟨u, hash_password p⟩, List.mem_append_right _ (List.mem_cons_self _ _), rfl, rfl⟩

/-- Witness for C10 on an initially empty store. -/
theorem C10_register_then_authenticate_witness :
    (register [] "erin" "pw2").1 = .ok ∧
    authenticate (register [] "erin" "pw2").2 "erin" "pw2" = true :=
  ⟨(C10_register_then_authenticate [] "erin" "pw2" (by decide) (by decide) (by simp)).1,
   (C10_register_then_authenticate [] "erin" "pw2" (by decide) (by decide) (by simp)).2⟩

end GSTReporter
